import Mathlib

/-!
Verification development for the hotel room price scraper (`app.py`).

The Python source is shallowly embedded:
* BeautifulSoup element trees are modelled as `Element`/`Row`/`Page` values
  carrying the tag names, class attribute lists and (joined, stripped) text
  that the scraper inspects; the two regular expressions of the source are
  embedded as executable matchers over `List Char` with Python `re.search`
  semantics (leftmost match, greedy with the backtracking behaviour that is
  observable for these particular patterns).
* Python `float`/`int` are modelled as `Rat`/`Int`; `ValueError` style
  failures of numeric parsing are modelled in an `Except` monad, and the
  `try/except` blocks of the source are the corresponding handlers.
* pandas tables are lists of `RoomRecord`; `sort_values` is a stable sort by
  the Python comparison on the column values (object columns of strings
  compare lexicographically by code point, missing values sort last), and
  `groupby(...).first()` takes, per column, the first non-missing value of
  each key group, with the groups ordered by ascending key.
* `random.randint` and the `asyncio` completion order are inputs: a draw
  function `rand lo hi` and a completion permutation of the task list.
* `datetime.date` is a `PDate` (year, month, day) with the Gregorian
  month lengths; `timedelta` arithmetic is day stepping.
-/

namespace HotelScrape

/-! ## Characters, strings and the Python comparison order

Python compares strings lexicographically by code point, a strict prefix
being smaller; that is the lexicographic order on the character lists. -/

/-- Python `<` on `String`. -/
def strLtP (a b : String) : Prop := a.data < b.data

/-- Python `<=` on `String` (used as the sort relation). -/
def strLe (a b : String) : Prop := a.data ≤ b.data

instance (a b : String) : Decidable (strLe a b) :=
  inferInstanceAs (Decidable (a.data ≤ b.data))

instance (a b : String) : Decidable (strLtP a b) :=
  inferInstanceAs (Decidable (a.data < b.data))

/-- Substring test (Python `needle in haystack`). -/
def containsSub (needle : List Char) : List Char → Bool
  | [] => needle.isEmpty
  | c :: t => needle.isPrefixOf (c :: t) || containsSub needle t

/-- Substring test on `String`. -/
def strContains (needle hay : String) : Bool := containsSub needle.data hay.data

/-- Python `str.lower`. -/
def strLower (s : String) : String := String.mk (s.data.map Char.toLower)

/-- Python `str.replace(",", "")`. -/
def stripCommas (s : String) : String := String.mk (s.data.filter (fun c => c ≠ ','))

/-- Python `\s` whitespace characters (ASCII range). -/
def isWS (c : Char) : Bool := c = ' ' || c = '\t' || c = '\n' || c = '\r' || c = '\x0b' || c = '\x0c'

/-! ## The DOM model

An `Element` is one descendant element of a room row as far as the scraper
looks at it: its tag, its `class` attribute (a list of class strings) and
its text (`get_text(strip=True)` / `' '.join(stripped_strings)`).  A `Row`
is a `<tr>` of a room table, a `Page` is the parsed soup of one fetched
document: the optional `h2.hp__hotel-name` text and the `hprt-table`
tables, each a list of rows. -/

structure Element where
  tag : String
  classes : List String
  text : String
deriving DecidableEq

structure Row where
  hasDataBlockId : Bool
  elements : List Element
deriving DecidableEq

structure Page where
  hotelNameHeader : Option String
  tables : List (List Row)
deriving DecidableEq

/-! ## The area regular expression

`re.search(r'(\d+[.,]?\d*)\s*(?:square\s*)?(feet²|ft²|sq\s*ft|m²|sqm|sq\s*m|meters²)', text, re.IGNORECASE)`

For this pattern, Python's leftmost backtracking search coincides with a
maximal-munch match attempted at each start position in turn: none of the
quantified pieces can give back a character that the continuation could
consume (digits are never whitespace or unit letters, and no unit token is
a prefix of a viable continuation of `square`). -/

/-- Case-insensitive literal match; returns the consumed original
characters and the rest. -/
def matchLitCI : List Char → List Char → Option (List Char × List Char)
  | [], cs => some ([], cs)
  | _ :: _, [] => none
  | l :: ls, c :: cs =>
    if c.toLower = l.toLower then (matchLitCI ls cs).map (fun p => (c :: p.1, p.2)) else none

/-- Match `sq\s*X` (case-insensitive) for a literal tail `X`. -/
def matchSqWs (tail cs : List Char) : Option (List Char × List Char) :=
  match matchLitCI ['s', 'q'] cs with
  | none => none
  | some (p1, r1) =>
    match matchLitCI tail (r1.dropWhile isWS) with
    | none => none
    | some (p2, r2) => some (p1 ++ r1.takeWhile isWS ++ p2, r2)

/-- The unit alternation `feet²|ft²|sq\s*ft|m²|sqm|sq\s*m|meters²`,
alternatives tried in order. -/
def matchUnit (cs : List Char) : Option (List Char × List Char) :=
  match matchLitCI "feet²".data cs with
  | some r => some r
  | none =>
  match matchLitCI "ft²".data cs with
  | some r => some r
  | none =>
  match matchSqWs ['f', 't'] cs with
  | some r => some r
  | none =>
  match matchLitCI "m²".data cs with
  | some r => some r
  | none =>
  match matchLitCI "sqm".data cs with
  | some r => some r
  | none =>
  match matchSqWs ['m'] cs with
  | some r => some r
  | none => matchLitCI "meters²".data cs

/-- The optional `(?:square\s*)?` prefix followed by the unit alternation; returns the
characters matched by the unit group (group 2) only. -/
def matchSquareUnit (cs : List Char) : Option (List Char) :=
  match matchLitCI "square".data cs with
  | some (_, r1) => (matchUnit (r1.dropWhile isWS)).map (fun q => q.1)
  | none => (matchUnit cs).map (fun q => q.1)

/-- After the leading digits (`\d+`): the optional `[.,]?` separator with
its trailing `\d*`, and the remainder of the input. -/
def numTailOf : List Char → List Char × List Char
  | c :: rest =>
    if c = '.' ∨ c = ',' then (c :: rest.takeWhile Char.isDigit, rest.dropWhile Char.isDigit)
    else ([], c :: rest)
  | [] => ([], [])

/-- Attempt the area pattern at the start of `cs`; on success returns
(group 1 characters, group 2 characters). -/
def matchAt (cs : List Char) : Option (List Char × List Char) :=
  if (cs.takeWhile Char.isDigit).isEmpty then none
  else
    match matchSquareUnit ((numTailOf (cs.dropWhile Char.isDigit)).2.dropWhile isWS) with
    | some u => some (cs.takeWhile Char.isDigit ++ (numTailOf (cs.dropWhile Char.isDigit)).1, u)
    | none => none

/-- Python `re.search` for the area pattern: try every start position, leftmost
match wins. -/
def searchArea : List Char → Option (List Char × List Char)
  | [] => none
  | c :: rest =>
    match matchAt (c :: rest) with
    | some r => some r
    | none => searchArea rest

/-! ## Python numeric parsing -/

/-- Numeric value of a digit string. -/
def digitsToNat (cs : List Char) : Nat := cs.foldl (fun a c => a * 10 + (c.toNat - '0'.toNat)) 0

/-- Python `int(s)` restricted to the shapes reachable here: succeeds on a
non-empty all-digit string, raises (`Except.error`) otherwise. -/
def pyInt (s : String) : Except String Int :=
  if s.data ≠ [] ∧ s.data.all Char.isDigit then .ok (digitsToNat s.data : Int)
  else .error "invalid literal for int"

/-- Python `float(s)` restricted to the shapes reachable here: digits with
at most one decimal point, not everything empty. -/
def pyFloat (s : String) : Except String Rat :=
  match s.data.splitOn '.' with
  | [ip] =>
    if ip ≠ [] ∧ ip.all Char.isDigit then .ok ((digitsToNat ip : Int) : Rat)
    else .error "could not convert string to float"
  | [ip, fp] =>
    if (ip ≠ [] ∨ fp ≠ []) ∧ ip.all Char.isDigit ∧ fp.all Char.isDigit then
      .ok ((digitsToNat ip : Rat) + (digitsToNat fp : Rat) / (10 : Rat) ^ fp.length)
    else .error "could not convert string to float"
  | _ => .error "could not convert string to float"

/-- A parsed room area: `int` or `float` in the source. -/
inductive AreaVal where
  | ival : Int → AreaVal
  | fval : Rat → AreaVal
deriving DecidableEq

/-! ## extract_room_area -/

/-- The class filter of `extract_room_area`:
`row.find_all(['span','div'], class_=lambda x: x and any(cls in str(x) for cls in [...]))`. -/
def areaClassKeys : List String := ["bui-badge", "room-size", "facility", "hprt-facility"]

def isAreaCandidate (e : Element) : Bool :=
  (e.tag == "span" || e.tag == "div") && (!e.classes.isEmpty) &&
    e.classes.any (fun c => areaClassKeys.any (fun k => strContains k c))

/-- The `for element in area_elements` loop of `extract_room_area`, in the
exception monad: a failing numeric conversion raises. -/
def areaFromElems : List Element → Except String (Option (AreaVal × String))
  | [] => .ok none
  | e :: es =>
    match searchArea e.text.data with
    | none => areaFromElems es
    | some (num, unit) =>
      let areaValue := stripCommas (String.mk num)
      if areaValue.data.contains '.' then
        match pyFloat areaValue with
        | .ok q => .ok (some (.fval q, strLower (String.mk unit)))
        | .error m => .error m
      else
        match pyInt areaValue with
        | .ok z => .ok (some (.ival z, strLower (String.mk unit)))
        | .error m => .error m

/-- Body of `extract_room_area` (the code inside the `try`). -/
def extractRoomAreaBody (row : Row) : Except String (Option (AreaVal × String)) :=
  areaFromElems (row.elements.filter isAreaCandidate)

/-- The function `extract_room_area` with its `try/except` rendered as a handler that
turns any raised exception into a normal `none` return. -/
def extractRoomAreaE (row : Row) : Except String (Option (AreaVal × String)) :=
  match extractRoomAreaBody row with
  | .ok v => .ok v
  | .error _ => .ok none

/-- The function `extract_room_area` as the total function the caller sees. -/
def extract_room_area (row : Row) : Option (AreaVal × String) :=
  match extractRoomAreaE row with
  | .ok v => v
  | .error _ => none

/-! ## extract_room_price -/

/-- Attempt `[\d,]+\.?\d*` at the start of `cs`; returns the matched
characters and the rest (maximal munch, which agrees with `re` here). -/
def priceMatchAt (cs : List Char) : Option (List Char × List Char) :=
  let p1 := cs.takeWhile (fun c => c.isDigit || c = ',')
  if p1.isEmpty then none
  else
    match cs.dropWhile (fun c => c.isDigit || c = ',') with
    | '.' :: rest => some (p1 ++ '.' :: rest.takeWhile Char.isDigit, rest.dropWhile Char.isDigit)
    | r1 => some (p1, r1)

/-- Python `re.search` for the price pattern. -/
def searchPrice : List Char → Option (List Char)
  | [] => none
  | c :: rest =>
    match priceMatchAt (c :: rest) with
    | some (m, _) => some m
    | none => searchPrice rest

/-- Python `re.findall` for the price pattern: non-overlapping matches left to
right.  Fuelled recursion; every step consumes at least one character, so
`cs.length` fuel never runs out. -/
def findAllPriceF : Nat → List Char → List (List Char)
  | 0, _ => []
  | _ + 1, [] => []
  | fuel + 1, c :: rest =>
    match priceMatchAt (c :: rest) with
    | some (m, r) => m :: findAllPriceF fuel r
    | none => findAllPriceF fuel rest

def findAllPrice (cs : List Char) : List (List Char) := findAllPriceF cs.length cs

/-- The screen-reader fallback loop of `extract_room_price`: for each
`span.bui-u-sr-only` element whose text mentions "price", take the last
numeric match; elements without a numeric match are skipped. -/
def srScan : List Element → Option String
  | [] => none
  | e :: es =>
    if strContains "price" (strLower e.text) then
      match (findAllPrice e.text.data).getLast? with
      | some m => some (stripCommas (String.mk m))
      | none => srScan es
    else srScan es

/-- Body of `extract_room_price` (the code inside the `try`). -/
def extractRoomPriceBody (row : Row) : Except String (Option String) :=
  let primary := row.elements.find? (fun e => e.tag == "span" && e.classes.contains "prco-valign-middle-helper")
  let fromPrimary : Option String :=
    match primary with
    | some e => (searchPrice e.text.data).map (fun m => stripCommas (String.mk m))
    | none => none
  match fromPrimary with
  | some p => .ok (some p)
  | none => .ok (srScan (row.elements.filter (fun e => e.tag == "span" && e.classes.contains "bui-u-sr-only")))

/-- The function `extract_room_price` with its `try/except` as a handler. -/
def extractRoomPriceE (row : Row) : Except String (Option String) :=
  match extractRoomPriceBody row with
  | .ok v => .ok v
  | .error _ => .ok none

/-- The function `extract_room_price` as the total function the caller sees. -/
def extract_room_price (row : Row) : Option String :=
  match extractRoomPriceE row with
  | .ok v => v
  | .error _ => none

/-! ## parse_hotel_page -/

/-- One combined-table row: the dict appended in `parse_hotel_page`, in
column order. -/
structure RoomRecord where
  hotel_name : String
  check_in_date : String
  check_out_date : String
  room_name : Option String
  room_price : Option String
  room_area : AreaVal
  area_unit : String
  url : String
deriving DecidableEq

/-- All rows the parser iterates over: for each `table.hprt-table`, its
`tr[data-block-id]` rows. -/
def rowsOf (page : Page) : List Row :=
  (page.tables.map (fun t => t.filter (fun r => r.hasDataBlockId))).flatten

/-- The `row.find('span', class_='hprt-roomtype-icon-link')` text, if any. -/
def roomNameOf (row : Row) : Option String :=
  (row.elements.find? (fun e => e.tag == "span" && e.classes.contains "hprt-roomtype-icon-link")).map
    (fun e => e.text)

/-- Hotel display name: the `h2.hp__hotel-name` text, else the supplied
identifier. -/
def displayNameOf (page : Page) (hotel_name : String) : String :=
  match page.hotelNameHeader with
  | some t => t
  | none => hotel_name

/-- The record built for one row when area extraction succeeded. -/
def rowEmission (display check_in_date check_out_date url : String) (row : Row) :
    Option RoomRecord :=
  match extract_room_area row with
  | some au =>
    some { hotel_name := display, check_in_date, check_out_date,
           room_name := roomNameOf row, room_price := extract_room_price row,
           room_area := au.1, area_unit := au.2, url }
  | none => none

/-- The row loop of `parse_hotel_page`. -/
def parseRows (display check_in_date check_out_date url : String) (rows : List Row) :
    List RoomRecord :=
  rows.filterMap (rowEmission display check_in_date check_out_date url)

/-- The function `parse_hotel_page`. -/
def parse_hotel_page (page : Page) (hotel_name check_in_date check_out_date url : String) :
    List RoomRecord :=
  parseRows (displayNameOf page hotel_name) check_in_date check_out_date url (rowsOf page)

/-- The row loop of `parse_hotel_page` in the exception monad, calling the
handler-wrapped extractors exactly as the source does. -/
def parseRowsE (display check_in_date check_out_date url : String) :
    List Row → Except String (List RoomRecord)
  | [] => .ok []
  | row :: rest => do
    let price ← extractRoomPriceE row
    let areaInfo ← extractRoomAreaE row
    let tail ← parseRowsE display check_in_date check_out_date url rest
    match areaInfo with
    | some au =>
      .ok ({ hotel_name := display, check_in_date, check_out_date,
             room_name := roomNameOf row, room_price := price,
             room_area := au.1, area_unit := au.2, url } :: tail)
    | none => .ok tail

/-- The function `parse_hotel_page` in the exception monad. -/
def parse_hotel_pageE (page : Page) (hotel_name check_in_date check_out_date url : String) :
    Except String (List RoomRecord) :=
  parseRowsE (displayNameOf page hotel_name) check_in_date check_out_date url (rowsOf page)

/-! ## The aggregation pass (module top level of `app.py`)

`result_df.dropna(subset=['room_name'])`, then
`.sort_values('room_price')` (object column of price strings: Python
string comparison, `NaN` last), then
`.groupby(['check_in_date','check_out_date','room_name'], as_index=False).first()`
(group keys ascending; per column the first non-missing value of the
group), then `.sort_values(['check_in_date','room_price'])`, then the
column reorder placing `hotel_name` first.

`sort_values` is modelled as a stable sort; pandas' default quicksort is
unstable, but every property stated below only depends on the multiset of
rows and on the sort keys, never on the order among key-equal rows. -/

/-- Ascending order on an object column of optional strings: Python string
comparison with missing values last. -/
def optStrLe (a b : Option String) : Prop :=
  match a, b with
  | none, none => True
  | none, some _ => False
  | some _, none => True
  | some x, some y => strLe x y

instance (a b : Option String) : Decidable (optStrLe a b) :=
  match a, b with
  | none, none => isTrue trivial
  | none, some _ => isFalse (fun h => h)
  | some _, none => isTrue trivial
  | some x, some y => inferInstanceAs (Decidable (strLe x y))

/-- Strict version of `optStrLe` (missing values last). -/
def optStrLt (a b : Option String) : Prop :=
  match a, b with
  | some x, some y => strLtP x y
  | some _, none => True
  | none, _ => False

instance (a b : Option String) : Decidable (optStrLt a b) :=
  match a, b with
  | some x, some y => inferInstanceAs (Decidable (strLtP x y))
  | some _, none => isTrue trivial
  | none, none => isFalse (fun h => h)
  | none, some _ => isFalse (fun h => h)

/-- Sort key of the first `sort_values('room_price')`. -/
def priceLe (a b : RoomRecord) : Prop := optStrLe a.room_price b.room_price

instance (a b : RoomRecord) : Decidable (priceLe a b) :=
  inferInstanceAs (Decidable (optStrLe a.room_price b.room_price))

/-- The `groupby` key. -/
def keyOf (r : RoomRecord) : String × String × Option String :=
  (r.check_in_date, r.check_out_date, r.room_name)

/-- Ascending order on group keys (tuple comparison, Python semantics). -/
def keyLe (a b : String × String × Option String) : Prop :=
  strLtP a.1 b.1 ∨ (a.1 = b.1 ∧
    (strLtP a.2.1 b.2.1 ∨ (a.2.1 = b.2.1 ∧ optStrLe a.2.2 b.2.2)))

instance (a b : String × String × Option String) : Decidable (keyLe a b) := by
  unfold keyLe; infer_instance

/-- Sort key of the final `sort_values(['check_in_date','room_price'])`. -/
def finalLe (a b : RoomRecord) : Prop :=
  strLtP a.check_in_date b.check_in_date ∨
    (a.check_in_date = b.check_in_date ∧ optStrLe a.room_price b.room_price)

instance (a b : RoomRecord) : Decidable (finalLe a b) := by
  unfold finalLe; infer_instance

/-- The `groupby(...).first()` aggregation on one column: first non-missing value. -/
def firstNonNull (l : List (Option String)) : Option String := (l.filterMap id).head?

/-- The post-processing pipeline applied to the combined table. -/
def aggregate (rows : List RoomRecord) : List RoomRecord :=
  let kept := rows.filter (fun r => r.room_name.isSome)
  let sorted1 := List.insertionSort priceLe kept
  let keys := List.insertionSort keyLe (sorted1.map keyOf).dedup
  let grouped := keys.filterMap (fun k =>
    match sorted1.filter (fun r => keyOf r = k) with
    | [] => none
    | g :: gs => some { g with room_price := firstNonNull ((g :: gs).map (fun r => r.room_price)) })
  List.insertionSort finalLe grouped

/-- The dataframe's columns, in their construction (dict insertion) order. -/
def resultColumns : List String :=
  ["hotel_name", "check_in_date", "check_out_date", "room_name", "room_price",
   "room_area", "area_unit", "url"]

/-- The reorder `column_order = ['hotel_name'] + [col for col in result_df.columns if col != 'hotel_name']`. -/
def reorder_columns (cols : List String) : List String :=
  "hotel_name" :: cols.filter (fun c => c ≠ "hotel_name")

/-- The numeric value a reader of the spec would assign to a price string. -/
def priceQ (r : RoomRecord) : Option Rat :=
  match r.room_price with
  | some s => match pyFloat s with | .ok q => some q | .error _ => none
  | none => none

/-- The ordering claimed for the final table: primarily by check-in date,
secondarily by price ascending (numeric, where both prices are numbers). -/
def claimNumOrder (a b : RoomRecord) : Prop :=
  strLtP a.check_in_date b.check_in_date ∨
    (a.check_in_date = b.check_in_date ∧
      match priceQ a, priceQ b with
      | some x, some y => x ≤ y
      | _, _ => True)

instance (a b : RoomRecord) : Decidable (claimNumOrder a b) := by
  unfold claimNumOrder
  haveI : Decidable (match priceQ a, priceQ b with
      | some x, some y => x ≤ y
      | _, _ => True) :=
    match priceQ a, priceQ b with
    | some x, some y => inferInstanceAs (Decidable (x ≤ y))
    | some _, none => isTrue trivial
    | none, _ => isTrue trivial
  infer_instance

/-! ## The claimed and amended forms of `extract_room_area` (C4) -/

/-- The unit token list exactly as the claim (and spec) state it. -/
def claimedUnitTokens : List String :=
  ["square feet", "ft²", "sq ft", "m²", "sqm", "sq m", "meters²"]

/-- Match one of the claimed unit tokens, case-insensitively. -/
def claimedMatchUnit (cs : List Char) : Option (List Char) :=
  claimedUnitTokens.findSome? (fun t => (matchLitCI t.data cs).map (fun p => p.1))

/-- The claimed pattern at one start position: a numeric value, optional
whitespace, then one of the claimed unit tokens. -/
def claimedMatchAt (cs : List Char) : Option (List Char × List Char) :=
  if (cs.takeWhile Char.isDigit).isEmpty then none
  else
    (claimedMatchUnit ((numTailOf (cs.dropWhile Char.isDigit)).2.dropWhile isWS)).map
      (fun u => (cs.takeWhile Char.isDigit ++ (numTailOf (cs.dropWhile Char.isDigit)).1, u))

/-- Leftmost match of the claimed pattern. -/
def claimedSearch : List Char → Option (List Char × List Char)
  | [] => none
  | c :: rest =>
    match claimedMatchAt (c :: rest) with
    | some r => some r
    | none => claimedSearch rest

/-- Total numeric parse of a matched value with comma separators removed:
float exactly when it contains a decimal point, else integer. -/
def amendedAreaValue (s : String) : AreaVal :=
  if s.data.contains '.' then
    match s.data.splitOn '.' with
    | [ip, fp] => .fval ((digitsToNat ip : Rat) + (digitsToNat fp : Rat) / (10 : Rat) ^ fp.length)
    | _ => .fval 0
  else .ival (digitsToNat s.data : Int)

/-- The extractor as claim C4 describes it (token set including
"square feet", excluding "feet²"). -/
def claimedExtractArea (row : Row) : Option (AreaVal × String) :=
  (row.elements.filter isAreaCandidate).findSome? (fun e =>
    (claimedSearch e.text.data).map (fun p =>
      (amendedAreaValue (stripCommas (String.mk p.1)), strLower (String.mk p.2))))

/-- The extractor as the amended claim describes it: first match of
the source's actual pattern (tokens feet², ft², sq ft, m², sqm, sq m,
meters², each optionally preceded by "square") across the candidate
elements, comma separators removed, float exactly when a decimal point is
present, else integer. -/
def amendedExtractArea (row : Row) : Option (AreaVal × String) :=
  (row.elements.filter isAreaCandidate).findSome? (fun e =>
    (searchArea e.text.data).map (fun p =>
      (amendedAreaValue (stripCommas (String.mk p.1)), strLower (String.mk p.2))))

/-! ## Fetching and orchestration -/

/-- The fetcher `fetch_hotel_page`: the transport outcome is an input — either a raised
client error (network failure / timeout) or a response with final status
and body text.  `raise_for_status` raises exactly for status ≥ 400, and the
`except` returns the empty string. -/
def fetch_hotel_page (resp : Except Unit (Nat × String)) : String :=
  match resp with
  | .error _ => ""
  | .ok (status, body) => if 400 ≤ status then "" else body

/-- The task body `get_hotel_details_async`: empty page content short-circuits to an
empty table, otherwise the page is parsed.  `soupOf` is the (external)
HTML parser producing the DOM model of a markup string. -/
def get_hotel_details_async (soupOf : String → Page) (resp : Except Unit (Nat × String))
    (hotel_url_name check_in_date check_out_date url : String) : List RoomRecord :=
  let html := fetch_hotel_page resp
  if html = "" then []
  else parse_hotel_page (soupOf html) hotel_url_name check_in_date check_out_date url

/-- The task list built by the nested loops of `gather_hotel_data`:
for each hotel, for each date range, one task. -/
def buildTasks : List String → List (String × String) → List (String × String × String)
  | [], _ => []
  | h :: hs, drs => drs.map (fun d => (h, d.1, d.2)) ++ buildTasks hs drs

/-- The progress callback invocations of the `as_completed` loop: one per
completed task, with the incremented completed count and the total. -/
def progressCalls {α : Type} (total : Nat) : List α → Nat → List (Nat × Nat)
  | [], _ => []
  | _ :: rest, done => (done + 1, total) :: progressCalls total rest (done + 1)

/-- After all tasks: keep the non-empty per-task tables and concatenate
them; an all-empty batch gives the empty table. -/
def combineResults (rs : List (List RoomRecord)) : List RoomRecord :=
  (rs.filter (fun t => ¬ t.isEmpty)).flatten

/-- The orchestrator `gather_hotel_data`: `resultOf` gives each task's table,
`completionOrder` is the order in which `as_completed` yields the tasks.
Returns the combined table and the progress callback invocation list. -/
def gather_hotel_data (resultOf : String × String × String → List RoomRecord)
    (hotels : List String) (dateRanges : List (String × String))
    (completionOrder : List (String × String × String)) :
    List RoomRecord × List (Nat × Nat) :=
  let total := hotels.length * dateRanges.length
  (combineResults (completionOrder.map resultOf), progressCalls total completionOrder 0)

/-! ## Date ranges (`generate_date_ranges`) -/

/-- A `datetime.date`. -/
structure PDate where
  year : Nat
  month : Nat
  day : Nat
deriving DecidableEq

/-- Gregorian leap year. -/
def isLeap (y : Nat) : Bool := (y % 4 == 0 && y % 100 != 0) || y % 400 == 0

/-- Length of a month. -/
def daysInMonth (y m : Nat) : Nat :=
  if m = 2 then (if isLeap y then 29 else 28)
  else if m = 4 ∨ m = 6 ∨ m = 9 ∨ m = 11 then 30 else 31

/-- The next calendar day. -/
def nextDay (d : PDate) : PDate :=
  if d.day < daysInMonth d.year d.month then ⟨d.year, d.month, d.day + 1⟩
  else if d.month < 12 then ⟨d.year, d.month + 1, 1⟩
  else ⟨d.year + 1, 1, 1⟩

/-- The previous calendar day. -/
def prevDay (d : PDate) : PDate :=
  if 1 < d.day then ⟨d.year, d.month, d.day - 1⟩
  else if 1 < d.month then ⟨d.year, d.month - 1, daysInMonth d.year (d.month - 1)⟩
  else ⟨d.year - 1, 12, 31⟩

/-- Python `d + timedelta(days=n)`. -/
def addDays (d : PDate) : Nat → PDate
  | 0 => d
  | n + 1 => nextDay (addDays d n)

/-- Python `d - timedelta(days=n)`. -/
def subDays (d : PDate) : Nat → PDate
  | 0 => d
  | n + 1 => prevDay (subDays d n)

/-- Python `datetime.date` comparison. -/
def dateLt (a b : PDate) : Prop :=
  a.year < b.year ∨ (a.year = b.year ∧
    (a.month < b.month ∨ (a.month = b.month ∧ a.day < b.day)))

instance (a b : PDate) : Decidable (dateLt a b) := by unfold dateLt; infer_instance

/-- A real calendar date (year ≥ 1, valid month, day within the month). -/
def ValidDate (d : PDate) : Prop :=
  1 ≤ d.year ∧ 1 ≤ d.month ∧ d.month ≤ 12 ∧ 1 ≤ d.day ∧ d.day ≤ daysInMonth d.year d.month

instance (d : PDate) : Decidable (ValidDate d) := by unfold ValidDate; infer_instance

/-- Linear month index (months since year 0), identifying a calendar
month. -/
def monthIdx (d : PDate) : Nat := 12 * d.year + (d.month - 1)

/-- The value `month_end` as the source computes it:
`next_month = month_start.replace(day=28) + timedelta(days=4)`,
`month_end = next_month - timedelta(days=next_month.day)`. -/
def monthEndOf (c : PDate) : PDate :=
  let nm := addDays ⟨c.year, c.month, 28⟩ 4
  subDays nm nm.day

/-- The `while current_date < end_date` loop of `generate_date_ranges`.
`rand lo hi` models `random.randint(lo, hi)`.  The fuel argument only
bounds recursion; `generate_date_ranges` supplies enough for the loop to
always terminate via its condition. -/
def drLoop (rand : Nat → Nat → Nat) (endD : PDate) : Nat → PDate → List (PDate × PDate)
  | 0, _ => []
  | fuel + 1, cur =>
    if dateLt cur endD then
      let me := monthEndOf cur
      let startDay := rand 1 (max 1 (me.day - 7))
      let rangeStart : PDate := ⟨cur.year, cur.month, startDay⟩
      (rangeStart, addDays rangeStart 7) :: drLoop rand endD fuel (addDays me 1)
    else []

/-- The generator `generate_date_ranges(start_date, delta)` (emitting date pairs; the
ISO formatting of the source is injective and omitted). -/
def generate_date_ranges (rand : Nat → Nat → Nat) (start : PDate) (delta : Nat) :
    List (PDate × PDate) :=
  drLoop rand (addDays start delta) (delta + 2) start

/-- Python `random.randint(lo, hi)` returns a value in `[lo, hi]`. -/
def RandInRange (rand : Nat → Nat → Nat) : Prop :=
  ∀ lo hi, lo ≤ hi → lo ≤ rand lo hi ∧ rand lo hi ≤ hi

/-! ## Column bookkeeping

`groupby([...], as_index=False).first()` returns the three group-key
columns first, then the remaining columns; the subsequent reorder puts
`hotel_name` back in front, giving the natural record order. -/

/-- Column order after the `groupby(...).first()` step. -/
def groupedColumns : List String :=
  ["check_in_date", "check_out_date", "room_name", "hotel_name", "room_price",
   "room_area", "area_unit", "url"]

/-! ## Concrete sample data used in the claim evaluations -/

/-- A combined-table row for a fixed stay, with the given room name, price
and url. -/
def sampleRec (name : String) (price : Option String) (u : String) : RoomRecord :=
  { hotel_name := "Grand Hotel", check_in_date := "2025-05-01",
    check_out_date := "2025-05-08", room_name := some name, room_price := price,
    room_area := .ival 30, area_unit := "m²", url := u }

/-- The C1 group: one room type offered at prices 150, 90 and 120. -/
def c1input : List RoomRecord :=
  [sampleRec "Deluxe Room" (some "150") "u1",
   sampleRec "Deluxe Room" (some "90") "u2",
   sampleRec "Deluxe Room" (some "120") "u3"]

/-- The C9 table: two room types on the same check-in date, numeric prices
90 and 120. -/
def c9input : List RoomRecord :=
  [sampleRec "Single" (some "90") "u1",
   sampleRec "Suite" (some "120") "u2"]

/-- A row whose only candidate element reads "500 square feet" (a token
the claim lists but the source's pattern does not accept). -/
def c4row : Row :=
  { hasDataBlockId := true,
    elements := [⟨"div", ["bui-badge"], "500 square feet"⟩] }

/-- A room row with name, a priced element reading "SGD 150.00" and an
area badge "200 sqm" (the spec's end-to-end scenario). -/
def c3row1 : Row :=
  { hasDataBlockId := true,
    elements :=
      [⟨"span", ["hprt-roomtype-icon-link"], "Twin Room"⟩,
       ⟨"span", ["prco-valign-middle-helper"], "SGD 150.00"⟩,
       ⟨"div", ["bui-badge"], "200 sqm"⟩] }

/-- A room row with name and price but no area information. -/
def c3row2 : Row :=
  { hasDataBlockId := true,
    elements :=
      [⟨"span", ["hprt-roomtype-icon-link"], "Suite"⟩,
       ⟨"span", ["prco-valign-middle-helper"], "SGD 999.00"⟩] }

/-- The spec's end-to-end page: two room rows, only the first with an
area. -/
def c3page : Page :=
  { hotelNameHeader := some "The Grand", tables := [[c3row1, c3row2]] }

/-- A room row with an area and a price but no room-name element. -/
def c3rowNoName : Row :=
  { hasDataBlockId := true,
    elements :=
      [⟨"span", ["prco-valign-middle-helper"], "80"⟩,
       ⟨"div", ["bui-badge"], "20 m²"⟩] }

/-- A room row with an area and a name but no price anywhere. -/
def c3rowNoPrice : Row :=
  { hasDataBlockId := true,
    elements :=
      [⟨"span", ["hprt-roomtype-icon-link"], "Economy"⟩,
       ⟨"div", ["facility"], "18 m²"⟩] }

/-! # Theorems -/

/-! ## Order facts for the sort relations -/

theorem strData_inj : ∀ {a b : String}, a.data = b.data → a = b
  | ⟨_⟩, ⟨_⟩, rfl => rfl

theorem optStrLe_total (a b : Option String) : optStrLe a b ∨ optStrLe b a := by
  cases a <;> cases b <;> simp [optStrLe, strLe]
  exact le_total _ _

theorem optStrLe_trans : ∀ a b c, optStrLe a b → optStrLe b c → optStrLe a c := by
  intro a b c h1 h2
  cases a <;> cases b <;> cases c <;> simp_all [optStrLe, strLe]
  exact le_trans h1 h2

instance : IsTotal RoomRecord finalLe := by
  constructor
  intro a b
  rcases lt_trichotomy a.check_in_date.data b.check_in_date.data with h | h | h
  · exact Or.inl (Or.inl h)
  · have he : a.check_in_date = b.check_in_date := strData_inj h
    rcases optStrLe_total a.room_price b.room_price with hp | hp
    · exact Or.inl (Or.inr ⟨he, hp⟩)
    · exact Or.inr (Or.inr ⟨he.symm, hp⟩)
  · exact Or.inr (Or.inl h)

instance : IsTrans RoomRecord finalLe := by
  constructor
  intro a b c h1 h2
  rcases h1 with h1 | ⟨e1, p1⟩ <;> rcases h2 with h2 | ⟨e2, p2⟩
  · exact Or.inl (lt_trans h1 h2)
  · refine Or.inl ?_
    show strLtP a.check_in_date c.check_in_date
    rw [← e2]; exact h1
  · refine Or.inl ?_
    show strLtP a.check_in_date c.check_in_date
    rw [e1]; exact h2
  · exact Or.inr ⟨e1.trans e2, optStrLe_trans _ _ _ p1 p2⟩

/-! ## C1: which row survives a price group -/

/-- Claim C1 (code bug evaluation): prices live in the table as strings,
and `sort_values('room_price')` compares them as Python strings, so for
the group with prices 150, 90, 120 the retained row is the one with price
"120" (the lexicographically smallest string), not the minimum price 90
that the claim requires. -/
theorem claim1_retains_lex_min_price :
    (aggregate c1input).map (fun r => r.room_price) = [some "120"] := by decide

/-! ## C9: final ordering and column order -/

/-- Claim C9 (counterexample): the final table is not ordered by numeric
price within a check-in date — the two rooms priced 90 and 120 on the same
date come out in the order 120, 90, because the price strings are compared
lexicographically. -/
theorem claim9_counterexample :
    ¬ List.Pairwise claimNumOrder (aggregate c9input) := by decide

/-- Claim C9 (amended): the final table is ordered primarily by check-in
date and secondarily by the price *string* in ascending Python string
order (absent prices last); the column reorder places `hotel_name` first
followed by the remaining fields in their natural order. -/
theorem claim9_amended :
    (∀ rows : List RoomRecord, List.Sorted finalLe (aggregate rows)) ∧
      reorder_columns groupedColumns = resultColumns := by
  constructor
  · intro rows
    unfold aggregate
    exact List.sorted_insertionSort finalLe _
  · decide

/-! ## C7: task cross product and progress reporting -/

theorem buildTasks_length (hs : List String) (drs : List (String × String)) :
    (buildTasks hs drs).length = hs.length * drs.length := by
  induction hs with
  | nil => simp [buildTasks]
  | cons h t ih => simp [buildTasks, ih, Nat.succ_mul, Nat.add_comm]

theorem progressCalls_eq {α : Type} (total : Nat) :
    ∀ (l : List α) (done : Nat),
      progressCalls total l done = (List.range l.length).map (fun i => (done + i + 1, total)) := by
  intro l
  induction l with
  | nil => intro done; simp [progressCalls]
  | cons x t ih =>
    intro done
    rw [List.length_cons, List.range_succ_eq_map, List.map_cons, List.map_map]
    show (done + 1, total) :: progressCalls total t (done + 1) = (done + 0 + 1, total) :: _
    rw [ih (done + 1)]
    refine congrArg₂ _ (by simp) ?_
    apply List.map_congr_left
    intro a _
    simp only [Function.comp_apply]
    refine congrArg₂ _ ?_ rfl
    omega

/-- Claim C7: `gather_hotel_data` builds one task per (hotel, date range)
pair — `|hotels| * |date ranges|` tasks — and, whatever completion order
the scheduler produces, invokes the progress callback exactly once per
task with the completed counts 1, 2, ..., total in that order. -/
theorem claim7_tasks_and_progress (resultOf : String × String × String → List RoomRecord)
    (hotels : List String) (dateRanges : List (String × String))
    (order : List (String × String × String))
    (hp : order.Perm (buildTasks hotels dateRanges)) :
    (buildTasks hotels dateRanges).length = hotels.length * dateRanges.length ∧
      (gather_hotel_data resultOf hotels dateRanges order).2 =
        (List.range (hotels.length * dateRanges.length)).map
          (fun i => (i + 1, hotels.length * dateRanges.length)) := by
  refine ⟨buildTasks_length hotels dateRanges, ?_⟩
  show progressCalls (hotels.length * dateRanges.length) order 0 = _
  rw [progressCalls_eq, hp.length_eq, buildTasks_length]
  apply List.map_congr_left
  intro a _
  simp

theorem claim7_witness :
    (buildTasks ["alpha", "beta"] [("ci", "co")]).length = 2 ∧
      (gather_hotel_data (fun _ => ([] : List RoomRecord)) ["alpha", "beta"] [("ci", "co")]
          [("beta", "ci", "co"), ("alpha", "ci", "co")]).2 = [(1, 2), (2, 2)] := by
  have h := claim7_tasks_and_progress (fun _ => ([] : List RoomRecord)) ["alpha", "beta"]
    [("ci", "co")] [("beta", "ci", "co"), ("alpha", "ci", "co")] (by decide)
  exact ⟨h.1, by simpa using h.2⟩

/-! ## C8: fetch failures degrade to empty results -/

/-- Claim C8 (counterexample): `raise_for_status` only raises for status
≥ 400, so a 304 response — which is not a 2xx status — is returned as page
content rather than the empty string the claim requires. -/
theorem claim8_counterexample :
    fetch_hotel_page (Except.ok (304, "cached")) = "cached" ∧ ¬ (200 ≤ 304 ∧ 304 < 300) := by
  exact ⟨rfl, by omega⟩

/-- Claim C8 (amended): on a transport error / timeout, or on an HTTP
status ≥ 400, `fetch_hotel_page` returns the empty string and
`get_hotel_details_async` returns the empty table for that target; and a
batch whose task results are all empty combines to the empty table, not an
error. -/
theorem claim8_amended :
    (∀ (soupOf : String → Page) (resp : Except Unit (Nat × String)) (hn ci co url : String),
        (resp = .error () ∨ ∃ s b, resp = .ok (s, b) ∧ 400 ≤ s) →
          fetch_hotel_page resp = "" ∧
            get_hotel_details_async soupOf resp hn ci co url = []) ∧
      (∀ rs : List (List RoomRecord), (∀ t ∈ rs, t = []) → combineResults rs = []) := by
  constructor
  · intro soupOf resp hn ci co url h
    have hf : fetch_hotel_page resp = "" := by
      rcases h with h | ⟨s, b, h, hs⟩
      · subst h; rfl
      · subst h; simp [fetch_hotel_page, hs]
    exact ⟨hf, by simp [get_hotel_details_async, hf]⟩
  · intro rs h
    unfold combineResults
    have hfil : rs.filter (fun t => ¬ t.isEmpty) = [] := by
      rw [List.filter_eq_nil_iff]
      intro t ht
      simp [h t ht]
    rw [hfil]
    rfl

/-! ## C2: no exception escapes extraction -/

theorem extractRoomAreaE_ok (r : Row) : extractRoomAreaE r = .ok (extract_room_area r) := by
  cases hb : extractRoomAreaBody r <;> simp [extract_room_area, extractRoomAreaE, hb]

theorem extractRoomPriceE_ok (r : Row) : extractRoomPriceE r = .ok (extract_room_price r) := by
  cases hb : extractRoomPriceBody r <;> simp [extract_room_price, extractRoomPriceE, hb]

theorem parseRowsE_ok (d ci co url : String) :
    ∀ rows, parseRowsE d ci co url rows = .ok (parseRows d ci co url rows) := by
  intro rows
  induction rows with
  | nil => rfl
  | cons row rest ih =>
    show (extractRoomPriceE row >>= fun price =>
        extractRoomAreaE row >>= fun areaInfo =>
        parseRowsE d ci co url rest >>= fun tail =>
        match areaInfo with
        | some au =>
          .ok ({ hotel_name := d, check_in_date := ci, check_out_date := co,
                 room_name := roomNameOf row, room_price := price,
                 room_area := au.1, area_unit := au.2, url } :: tail)
        | none => .ok tail) = _
    rw [extractRoomPriceE_ok, extractRoomAreaE_ok, ih]
    cases ha : extract_room_area row <;>
      simp only [parseRows, List.filterMap_cons, rowEmission, ha] <;> rfl

/-- Claim C2: extraction is total — the exception-monad renderings of
`parse_hotel_page` and of both field extractors always return normally
(the `try/except` handlers absorb every internal failure), and the row
loop is local: a malformed row only affects its own emission, never the
processing of sibling rows. -/
theorem claim2_extraction_total :
    (∀ page hn ci co url,
        parse_hotel_pageE page hn ci co url = .ok (parse_hotel_page page hn ci co url)) ∧
      (∀ row, extractRoomAreaE row = .ok (extract_room_area row) ∧
          extractRoomPriceE row = .ok (extract_room_price row)) ∧
      (∀ d ci co url (r1 r2 : List Row),
          parseRows d ci co url (r1 ++ r2) =
            parseRows d ci co url r1 ++ parseRows d ci co url r2) := by
  refine ⟨fun page hn ci co url => parseRowsE_ok _ _ _ _ _,
    fun row => ⟨extractRoomAreaE_ok row, extractRoomPriceE_ok row⟩,
    fun d ci co url r1 r2 => ?_⟩
  exact List.filterMap_append r1 r2 (rowEmission d ci co url)

/-! ## C3: area presence gates emission -/

theorem parseRows_length (d ci co url : String) :
    ∀ rows, (parseRows d ci co url rows).length =
      (rows.filter (fun r => (extract_room_area r).isSome)).length := by
  intro rows
  induction rows with
  | nil => rfl
  | cons row rest ih =>
    simp only [parseRows, List.filterMap_cons, List.filter_cons] at ih ⊢
    cases ha : extract_room_area row <;> simp [rowEmission, ha, ih]

/-- Claim C3: a row yields a record exactly when its area extraction
succeeded — rows without an area match never appear, whatever their name
or price; and room name and price can each independently be absent in an
emitted record.  The third conjunct is the spec's end-to-end scenario:
of two rows, only the one with area "200 sqm" and price "150.00" is
emitted. -/
theorem claim3_area_gates_emission :
    (∀ d ci co url row,
        (rowEmission d ci co url row).isSome ↔ (extract_room_area row).isSome) ∧
      (∀ page hn ci co url, (parse_hotel_page page hn ci co url).length =
          ((rowsOf page).filter (fun r => (extract_room_area r).isSome)).length) ∧
      parse_hotel_page c3page "grand" "2025-03-01" "2025-03-08" "u" =
        [{ hotel_name := "The Grand", check_in_date := "2025-03-01",
           check_out_date := "2025-03-08", room_name := some "Twin Room",
           room_price := some "150.00", room_area := .ival 200, area_unit := "sqm",
           url := "u" }] ∧
      (rowEmission "d" "ci" "co" "u" c3rowNoName).map
          (fun r => (r.room_name, r.room_price)) = some (none, some "80") ∧
      (rowEmission "d" "ci" "co" "u" c3rowNoPrice).map
          (fun r => (r.room_name, r.room_price)) = some (some "Economy", none) := by
  refine ⟨fun d ci co url row => ?_, fun page hn ci co url => parseRows_length _ _ _ _ _,
    by decide, by decide, by decide⟩
  cases ha : extract_room_area row <;> simp [rowEmission, ha]

/-! ## C4: the area pattern -/

theorem digit_ne_comma {c : Char} (h : c.isDigit = true) : c ≠ ',' := by
  intro he; subst he; simp [Char.isDigit] at h

theorem digit_ne_dot {c : Char} (h : c.isDigit = true) : c ≠ '.' := by
  intro he; subst he; simp [Char.isDigit] at h

theorem numTailOf_shape (r1 : List Char) :
    (numTailOf r1).1 = [] ∨
      ∃ c d2, (c = '.' ∨ c = ',') ∧ d2.all Char.isDigit = true ∧ (numTailOf r1).1 = c :: d2 := by
  cases r1 with
  | nil => exact Or.inl rfl
  | cons c rest =>
    by_cases hc : c = '.' ∨ c = ','
    · exact Or.inr ⟨c, rest.takeWhile Char.isDigit, hc, List.all_takeWhile, by
        simp [numTailOf, hc]⟩
    · exact Or.inl (by simp [numTailOf, hc])

theorem matchAt_num_shape {cs num u : List Char} (h : matchAt cs = some (num, u)) :
    (num ≠ [] ∧ num.all Char.isDigit = true) ∨
      ∃ d1 c d2, d1 ≠ [] ∧ d1.all Char.isDigit = true ∧ (c = '.' ∨ c = ',') ∧
        d2.all Char.isDigit = true ∧ num = d1 ++ c :: d2 := by
  unfold matchAt at h
  by_cases he : (cs.takeWhile Char.isDigit).isEmpty = true
  · rw [if_pos he] at h
    exact absurd h (by simp)
  · rw [if_neg he] at h
    have hne : cs.takeWhile Char.isDigit ≠ [] := by
      intro hx; exact he (by simp [hx])
    have hall : (cs.takeWhile Char.isDigit).all Char.isDigit = true := List.all_takeWhile
    cases hmu : matchSquareUnit ((numTailOf (cs.dropWhile Char.isDigit)).2.dropWhile isWS) with
    | none => rw [hmu] at h; exact absurd h (by simp)
    | some u0 =>
      rw [hmu] at h
      have hnum : num = cs.takeWhile Char.isDigit ++ (numTailOf (cs.dropWhile Char.isDigit)).1 := by
        have := h.symm
        simp only [Option.some.injEq, Prod.mk.injEq] at this
        exact this.1
      rcases numTailOf_shape (cs.dropWhile Char.isDigit) with ht | ⟨c, d2, hc, hd2, ht⟩
      · rw [ht, List.append_nil] at hnum
        exact Or.inl ⟨hnum ▸ hne, hnum ▸ hall⟩
      · rw [ht] at hnum
        exact Or.inr ⟨cs.takeWhile Char.isDigit, c, d2, hne, hall, hc, hd2, hnum⟩

theorem searchArea_num_shape :
    ∀ {cs num u : List Char}, searchArea cs = some (num, u) →
      (num ≠ [] ∧ num.all Char.isDigit = true) ∨
        ∃ d1 c d2, d1 ≠ [] ∧ d1.all Char.isDigit = true ∧ (c = '.' ∨ c = ',') ∧
          d2.all Char.isDigit = true ∧ num = d1 ++ c :: d2 := by
  intro cs
  induction cs with
  | nil => intro num u h; simp [searchArea] at h
  | cons c rest ih =>
    intro num u h
    simp only [searchArea] at h
    cases hm : matchAt (c :: rest) with
    | some r =>
      rw [hm] at h
      obtain rfl : r = (num, u) := by simpa using h
      exact matchAt_num_shape hm
    | none =>
      rw [hm] at h
      exact ih h

theorem stripCommas_data (s : String) :
    (stripCommas s).data = s.data.filter (fun c => c ≠ ',') := rfl

theorem filter_comma_of_digits {l : List Char} (h : l.all Char.isDigit = true) :
    l.filter (fun c => c ≠ ',') = l := by
  rw [List.filter_eq_self]
  intro a ha
  have := (List.all_eq_true.mp h) a ha
  simpa using digit_ne_comma this

theorem not_dot_mem_of_digits {l : List Char} (h : l.all Char.isDigit = true) :
    '.' ∉ l := by
  intro hm
  have := (List.all_eq_true.mp h) '.' hm
  simp [Char.isDigit] at this

theorem splitOn_dot_of_digits {d1 d2 : List Char}
    (h1 : d1.all Char.isDigit = true) (h2 : d2.all Char.isDigit = true) :
    (d1 ++ '.' :: d2).splitOn '.' = [d1, d2] := by
  simp only [List.splitOn]
  rw [List.splitOnP_first (fun x => x == '.') d1 ?_ '.' (by simp) d2]
  · rw [List.splitOnP_eq_single (fun x => x == '.') d2 ?_]
    intro x hx
    have := (List.all_eq_true.mp h2) x hx
    simpa using digit_ne_dot this
  · intro x hx
    have := (List.all_eq_true.mp h1) x hx
    simpa using digit_ne_dot this

theorem parse_cases (s : String) (u : List Char)
    (h : (s.data ≠ [] ∧ s.data.all Char.isDigit = true) ∨
      ∃ d1 d2, d1 ≠ [] ∧ d1.all Char.isDigit = true ∧ d2.all Char.isDigit = true ∧
        s.data = d1 ++ '.' :: d2) :
    (if s.data.contains '.' then
        match pyFloat s with
        | .ok q => Except.ok (some (AreaVal.fval q, strLower (String.mk u)))
        | .error m => Except.error m
      else
        match pyInt s with
        | .ok z => Except.ok (some (AreaVal.ival z, strLower (String.mk u)))
        | .error m => Except.error m)
      = Except.ok (some (amendedAreaValue s, strLower (String.mk u))) := by
  rcases h with ⟨hne, hdig⟩ | ⟨d1, d2, hne, hd1, hd2, hm⟩
  · have hnd : '.' ∉ s.data := not_dot_mem_of_digits hdig
    simp [pyInt, amendedAreaValue, hne, hdig, hnd]
  · have hdot : '.' ∈ s.data := by rw [hm]; simp
    simp [pyFloat, amendedAreaValue, hm, splitOn_dot_of_digits hd1 hd2, hne, hd1, hd2, hdot]

theorem areaElem_step {num u : List Char}
    (h : (num ≠ [] ∧ num.all Char.isDigit = true) ∨
      ∃ d1 c d2, d1 ≠ [] ∧ d1.all Char.isDigit = true ∧ (c = '.' ∨ c = ',') ∧
        d2.all Char.isDigit = true ∧ num = d1 ++ c :: d2) :
    (if (stripCommas (String.mk num)).data.contains '.' then
        match pyFloat (stripCommas (String.mk num)) with
        | .ok q => Except.ok (some (AreaVal.fval q, strLower (String.mk u)))
        | .error m => Except.error m
      else
        match pyInt (stripCommas (String.mk num)) with
        | .ok z => Except.ok (some (AreaVal.ival z, strLower (String.mk u)))
        | .error m => Except.error m)
      = Except.ok (some (amendedAreaValue (stripCommas (String.mk num)), strLower (String.mk u))) := by
  apply parse_cases
  rcases h with ⟨hne, hdig⟩ | ⟨d1, c, d2, hne, hd1, hc, hd2, heq⟩
  · have hstrip : (stripCommas (String.mk num)).data = num := by
      rw [stripCommas_data]
      exact filter_comma_of_digits hdig
    rw [hstrip]
    exact Or.inl ⟨hne, hdig⟩
  · subst heq
    rcases hc with rfl | rfl
    · -- separator is a decimal point: the stripped value keeps it
      have hstrip : (stripCommas (String.mk (d1 ++ '.' :: d2))).data = d1 ++ '.' :: d2 := by
        rw [stripCommas_data]
        show (d1 ++ '.' :: d2).filter (fun c => c ≠ ',') = _
        rw [List.filter_append, List.filter_cons, filter_comma_of_digits hd1,
          filter_comma_of_digits hd2]
        simp
      rw [hstrip]
      exact Or.inr ⟨d1, d2, hne, hd1, hd2, rfl⟩
    · -- separator is a comma: it is stripped, leaving all digits
      have hstrip : (stripCommas (String.mk (d1 ++ ',' :: d2))).data = d1 ++ d2 := by
        rw [stripCommas_data]
        show (d1 ++ ',' :: d2).filter (fun c => c ≠ ',') = _
        rw [List.filter_append, List.filter_cons, filter_comma_of_digits hd1,
          filter_comma_of_digits hd2]
        simp
      rw [hstrip]
      refine Or.inl ⟨?_, by rw [List.all_append, hd1, hd2]; rfl⟩
      intro hx
      exact hne (List.append_eq_nil.mp hx).1

theorem areaFromElems_eq (es : List Element) :
    areaFromElems es = .ok (es.findSome? (fun e =>
      (searchArea e.text.data).map (fun p =>
        (amendedAreaValue (stripCommas (String.mk p.1)), strLower (String.mk p.2))))) := by
  induction es with
  | nil => rfl
  | cons e es ih =>
    simp only [areaFromElems, List.findSome?_cons]
    cases hs : searchArea e.text.data with
    | none => simpa using ih
    | some p =>
      obtain ⟨num, u⟩ := p
      simpa using areaElem_step (searchArea_num_shape hs)

/-- Claim C4 (counterexample): the claim's unit token set contains
"square feet", but the source pattern requires "feet²" — on the row whose
badge reads "500 square feet" the claimed extractor finds an area and
`extract_room_area` finds none. -/
theorem claim4_counterexample :
    claimedExtractArea c4row = some (.ival 500, "square feet") ∧
      extract_room_area c4row = none := by decide

/-- Claim C4 (amended): `extract_room_area` returns the first match, over
the candidate badge/facility elements, of a numeric value followed
(after optional whitespace and an optional word "square") by one of the
unit tokens feet², ft², sq ft, m², sqm, sq m, meters², case-insensitively;
the value has comma separators removed and parses as a float exactly when
it contains a decimal point, else as an integer. -/
theorem claim4_amended_area_extraction (row : Row) :
    extract_room_area row = amendedExtractArea row := by
  unfold extract_room_area extractRoomAreaE extractRoomAreaBody amendedExtractArea
  rw [areaFromElems_eq]

/-! ## Calendar lemmas for `generate_date_ranges` -/

theorem dim_bounds (y m : Nat) (h1 : 1 ≤ m) (h2 : m ≤ 12) :
    28 ≤ daysInMonth y m ∧ daysInMonth y m ≤ 31 := by
  interval_cases m
  all_goals simp [daysInMonth]
  all_goals cases isLeap y <;> simp

theorem addDays_four (d : PDate) : addDays d 4 = nextDay (nextDay (nextDay (nextDay d))) := rfl

theorem monthEnd_eq (c : PDate) (h1 : 1 ≤ c.month) (h2 : c.month ≤ 12) :
    monthEndOf c = ⟨c.year, c.month, daysInMonth c.year c.month⟩ := by
  obtain ⟨y, m, d⟩ := c
  simp only at h1 h2 ⊢
  show subDays (addDays ⟨y, m, 28⟩ 4) (addDays ⟨y, m, 28⟩ 4).day = ⟨y, m, daysInMonth y m⟩
  rw [addDays_four]
  have hb := dim_bounds y m h1 h2
  have hdim : daysInMonth y m = 28 ∨ daysInMonth y m = 29 ∨
      daysInMonth y m = 30 ∨ daysInMonth y m = 31 := by omega
  by_cases hm : m < 12
  all_goals rcases hdim with h | h | h | h
  -- m < 12, month length 28
  · have hb2 := dim_bounds y (m + 1) (by omega) (by omega)
    have e1 : nextDay ⟨y, m, 28⟩ = ⟨y, m + 1, 1⟩ := by simp [nextDay, h, hm]
    have e2 : nextDay ⟨y, m + 1, 1⟩ = ⟨y, m + 1, 2⟩ := by simp [nextDay, show 1 < daysInMonth y (m + 1) by omega]
    have e3 : nextDay ⟨y, m + 1, 2⟩ = ⟨y, m + 1, 3⟩ := by simp [nextDay, show 2 < daysInMonth y (m + 1) by omega]
    have e4 : nextDay ⟨y, m + 1, 3⟩ = ⟨y, m + 1, 4⟩ := by simp [nextDay, show 3 < daysInMonth y (m + 1) by omega]
    rw [e1, e2, e3, e4]
    show prevDay (prevDay (prevDay (prevDay ⟨y, m + 1, 4⟩))) = ⟨y, m, daysInMonth y m⟩
    have p1 : prevDay ⟨y, m + 1, 4⟩ = ⟨y, m + 1, 3⟩ := by simp [prevDay]
    have p2 : prevDay ⟨y, m + 1, 3⟩ = ⟨y, m + 1, 2⟩ := by simp [prevDay]
    have p3 : prevDay ⟨y, m + 1, 2⟩ = ⟨y, m + 1, 1⟩ := by simp [prevDay]
    have p4 : prevDay ⟨y, m + 1, 1⟩ = ⟨y, m + 1 - 1, daysInMonth y (m + 1 - 1)⟩ := by
      simp [prevDay, show 1 < m + 1 by omega]
    rw [p1, p2, p3, p4]
    simp
  -- m < 12, month length 29
  · have hb2 := dim_bounds y (m + 1) (by omega) (by omega)
    have e1 : nextDay ⟨y, m, 28⟩ = ⟨y, m, 29⟩ := by simp [nextDay, show 28 < daysInMonth y m by omega]
    have e2 : nextDay ⟨y, m, 29⟩ = ⟨y, m + 1, 1⟩ := by simp [nextDay, h, hm]
    have e3 : nextDay ⟨y, m + 1, 1⟩ = ⟨y, m + 1, 2⟩ := by simp [nextDay, show 1 < daysInMonth y (m + 1) by omega]
    have e4 : nextDay ⟨y, m + 1, 2⟩ = ⟨y, m + 1, 3⟩ := by simp [nextDay, show 2 < daysInMonth y (m + 1) by omega]
    rw [e1, e2, e3, e4]
    show prevDay (prevDay (prevDay ⟨y, m + 1, 3⟩)) = ⟨y, m, daysInMonth y m⟩
    have p1 : prevDay ⟨y, m + 1, 3⟩ = ⟨y, m + 1, 2⟩ := by simp [prevDay]
    have p2 : prevDay ⟨y, m + 1, 2⟩ = ⟨y, m + 1, 1⟩ := by simp [prevDay]
    have p3 : prevDay ⟨y, m + 1, 1⟩ = ⟨y, m + 1 - 1, daysInMonth y (m + 1 - 1)⟩ := by
      simp [prevDay, show 1 < m + 1 by omega]
    rw [p1, p2, p3]
    simp
  -- m < 12, month length 30
  · have hb2 := dim_bounds y (m + 1) (by omega) (by omega)
    have e1 : nextDay ⟨y, m, 28⟩ = ⟨y, m, 29⟩ := by simp [nextDay, show 28 < daysInMonth y m by omega]
    have e2 : nextDay ⟨y, m, 29⟩ = ⟨y, m, 30⟩ := by simp [nextDay, show 29 < daysInMonth y m by omega]
    have e3 : nextDay ⟨y, m, 30⟩ = ⟨y, m + 1, 1⟩ := by simp [nextDay, h, hm]
    have e4 : nextDay ⟨y, m + 1, 1⟩ = ⟨y, m + 1, 2⟩ := by simp [nextDay, show 1 < daysInMonth y (m + 1) by omega]
    rw [e1, e2, e3, e4]
    show prevDay (prevDay ⟨y, m + 1, 2⟩) = ⟨y, m, daysInMonth y m⟩
    have p1 : prevDay ⟨y, m + 1, 2⟩ = ⟨y, m + 1, 1⟩ := by simp [prevDay]
    have p2 : prevDay ⟨y, m + 1, 1⟩ = ⟨y, m + 1 - 1, daysInMonth y (m + 1 - 1)⟩ := by
      simp [prevDay, show 1 < m + 1 by omega]
    rw [p1, p2]
    simp
  -- m < 12, month length 31
  · have e1 : nextDay ⟨y, m, 28⟩ = ⟨y, m, 29⟩ := by simp [nextDay, show 28 < daysInMonth y m by omega]
    have e2 : nextDay ⟨y, m, 29⟩ = ⟨y, m, 30⟩ := by simp [nextDay, show 29 < daysInMonth y m by omega]
    have e3 : nextDay ⟨y, m, 30⟩ = ⟨y, m, 31⟩ := by simp [nextDay, show 30 < daysInMonth y m by omega]
    have e4 : nextDay ⟨y, m, 31⟩ = ⟨y, m + 1, 1⟩ := by simp [nextDay, h, hm]
    rw [e1, e2, e3, e4]
    show prevDay ⟨y, m + 1, 1⟩ = ⟨y, m, daysInMonth y m⟩
    have p1 : prevDay ⟨y, m + 1, 1⟩ = ⟨y, m + 1 - 1, daysInMonth y (m + 1 - 1)⟩ := by
      simp [prevDay, show 1 < m + 1 by omega]
    rw [p1]
    simp
  -- m = 12: the month length is 31, so only the last alternative is real
  · have hm12 : m = 12 := by omega
    subst hm12
    have h31 : daysInMonth y 12 = 31 := rfl
    omega
  · have hm12 : m = 12 := by omega
    subst hm12
    have h31 : daysInMonth y 12 = 31 := rfl
    omega
  · have hm12 : m = 12 := by omega
    subst hm12
    have h31 : daysInMonth y 12 = 31 := rfl
    omega
  · have hm12 : m = 12 := by omega
    subst hm12
    have e1 : nextDay ⟨y, 12, 28⟩ = ⟨y, 12, 29⟩ := by simp [nextDay, show 28 < daysInMonth y 12 by omega]
    have e2 : nextDay ⟨y, 12, 29⟩ = ⟨y, 12, 30⟩ := by simp [nextDay, show 29 < daysInMonth y 12 by omega]
    have e3 : nextDay ⟨y, 12, 30⟩ = ⟨y, 12, 31⟩ := by simp [nextDay, show 30 < daysInMonth y 12 by omega]
    have e4 : nextDay ⟨y, 12, 31⟩ = ⟨y + 1, 1, 1⟩ := by simp [nextDay, h]
    rw [e1, e2, e3, e4]
    show prevDay ⟨y + 1, 1, 1⟩ = ⟨y, 12, daysInMonth y 12⟩
    have p1 : prevDay ⟨y + 1, 1, 1⟩ = ⟨y + 1 - 1, 12, 31⟩ := by simp [prevDay]
    rw [p1, h]
    simp

theorem nextDay_valid {d : PDate} (h : ValidDate d) : ValidDate (nextDay d) := by
  obtain ⟨y, m, dd⟩ := d
  obtain ⟨hy, hm1, hm2, hd1, hd2⟩ := h
  simp only at hy hm1 hm2 hd1 hd2
  by_cases hlt : dd < daysInMonth y m
  · have h1 : nextDay ⟨y, m, dd⟩ = ⟨y, m, dd + 1⟩ := by simp [nextDay, hlt]
    rw [h1]
    refine ⟨?_, ?_, ?_, ?_, ?_⟩ <;> dsimp only [ValidDate] <;> omega
  · by_cases hm : m < 12
    · have h1 : nextDay ⟨y, m, dd⟩ = ⟨y, m + 1, 1⟩ := by simp [nextDay, hlt, hm]
      rw [h1]
      have hb := dim_bounds y (m + 1) (by omega) (by omega)
      refine ⟨?_, ?_, ?_, ?_, ?_⟩ <;> dsimp only [ValidDate] <;> omega
    · have h1 : nextDay ⟨y, m, dd⟩ = ⟨y + 1, 1, 1⟩ := by simp [nextDay, hlt, hm]
      rw [h1]
      have hb := dim_bounds (y + 1) 1 (by omega) (by omega)
      refine ⟨?_, ?_, ?_, ?_, ?_⟩ <;> dsimp only [ValidDate] <;> omega

theorem prevDay_nextDay {d : PDate} (h : ValidDate d) : prevDay (nextDay d) = d := by
  obtain ⟨y, m, dd⟩ := d
  obtain ⟨hy, hm1, hm2, hd1, hd2⟩ := h
  simp only at hy hm1 hm2 hd1 hd2
  by_cases hlt : dd < daysInMonth y m
  · have h1 : nextDay ⟨y, m, dd⟩ = ⟨y, m, dd + 1⟩ := by simp [nextDay, hlt]
    rw [h1]
    simp [prevDay, show 1 < dd + 1 by omega]
  · by_cases hm : m < 12
    · have h1 : nextDay ⟨y, m, dd⟩ = ⟨y, m + 1, 1⟩ := by simp [nextDay, hlt, hm]
      rw [h1]
      have hde : dd = daysInMonth y m := by omega
      simp [prevDay, show ¬ (1 < 1) by omega, show 1 < m + 1 by omega, hde]
    · have hm12 : m = 12 := by omega
      subst hm12
      have h1 : nextDay ⟨y, 12, dd⟩ = ⟨y + 1, 1, 1⟩ := by simp [nextDay, hlt]
      rw [h1]
      have hde : dd = 31 := by
        have h31 : daysInMonth y 12 = 31 := rfl
        omega
      subst hde
      simp [prevDay]

theorem lt_nextDay (d : PDate) : dateLt d (nextDay d) := by
  obtain ⟨y, m, dd⟩ := d
  by_cases hlt : dd < daysInMonth y m
  · have h1 : nextDay ⟨y, m, dd⟩ = ⟨y, m, dd + 1⟩ := by simp [nextDay, hlt]
    rw [h1]
    exact Or.inr ⟨rfl, Or.inr ⟨rfl, Nat.lt_succ_self dd⟩⟩
  · by_cases hm : m < 12
    · have h1 : nextDay ⟨y, m, dd⟩ = ⟨y, m + 1, 1⟩ := by simp [nextDay, hlt, hm]
      rw [h1]
      exact Or.inr ⟨rfl, Or.inl (Nat.lt_succ_self m)⟩
    · have h1 : nextDay ⟨y, m, dd⟩ = ⟨y + 1, 1, 1⟩ := by simp [nextDay, hlt, hm]
      rw [h1]
      exact Or.inl (Nat.lt_succ_self y)

theorem dateLt_trans {a b c : PDate} (h1 : dateLt a b) (h2 : dateLt b c) : dateLt a c := by
  unfold dateLt at *
  omega

theorem dateLt_addDays (d : PDate) (n : Nat) (hn : 1 ≤ n) : dateLt d (addDays d n) := by
  induction n with
  | zero => exact absurd hn (by omega)
  | succ k ih =>
    by_cases hk : 1 ≤ k
    · exact dateLt_trans (ih hk) (lt_nextDay (addDays d k))
    · have hk0 : k = 0 := by omega
      subst hk0
      exact lt_nextDay d

theorem addDays_valid {d : PDate} (h : ValidDate d) (n : Nat) : ValidDate (addDays d n) := by
  induction n with
  | zero => exact h
  | succ k ih => exact nextDay_valid ih

theorem monthIdx_nextDay {d : PDate} (h : ValidDate d) :
    monthIdx d ≤ monthIdx (nextDay d) ∧ monthIdx (nextDay d) ≤ monthIdx d + 1 := by
  obtain ⟨y, m, dd⟩ := d
  obtain ⟨hy, hm1, hm2, hd1, hd2⟩ := h
  simp only at hy hm1 hm2 hd1 hd2
  by_cases hlt : dd < daysInMonth y m
  · have h1 : nextDay ⟨y, m, dd⟩ = ⟨y, m, dd + 1⟩ := by simp [nextDay, hlt]
    rw [h1]
    simp only [monthIdx]
    omega
  · by_cases hm : m < 12
    · have h1 : nextDay ⟨y, m, dd⟩ = ⟨y, m + 1, 1⟩ := by simp [nextDay, hlt, hm]
      rw [h1]
      simp only [monthIdx]
      omega
    · have h1 : nextDay ⟨y, m, dd⟩ = ⟨y + 1, 1, 1⟩ := by simp [nextDay, hlt, hm]
      rw [h1]
      simp only [monthIdx]
      omega

theorem monthIdx_addDays {d : PDate} (h : ValidDate d) (n : Nat) :
    monthIdx d ≤ monthIdx (addDays d n) ∧ monthIdx (addDays d n) ≤ monthIdx d + n := by
  induction n with
  | zero =>
    have ha : addDays d 0 = d := rfl
    rw [ha]
    omega
  | succ k ih =>
    have hn := monthIdx_nextDay (addDays_valid h k)
    have ha : addDays d (k + 1) = nextDay (addDays d k) := rfl
    rw [ha]
    omega

theorem prevDay_addDays {d : PDate} (h : ValidDate d) (n : Nat) :
    prevDay (addDays d (n + 1)) = addDays d n := by
  have ha : addDays d (n + 1) = nextDay (addDays d n) := rfl
  rw [ha]
  exact prevDay_nextDay (addDays_valid h n)

theorem firstOf_lt_iff {y m : Nat} (hm1 : 1 ≤ m) (hm2 : m ≤ 12) {e : PDate}
    (he : ValidDate e) :
    dateLt ⟨y, m, 1⟩ e ↔ 12 * y + m - 1 ≤ monthIdx (prevDay e) := by
  obtain ⟨ey, em, ed⟩ := e
  obtain ⟨hey, hem1, hem2, hed1, hed2⟩ := he
  simp only at hey hem1 hem2 hed1 hed2
  by_cases hd : 1 < ed
  · have hp : prevDay ⟨ey, em, ed⟩ = ⟨ey, em, ed - 1⟩ := by simp [prevDay, hd]
    rw [hp]
    simp only [dateLt, monthIdx]
    omega
  · have hd1 : ed = 1 := by omega
    subst hd1
    by_cases hm : 1 < em
    · have hp : prevDay ⟨ey, em, 1⟩ = ⟨ey, em - 1, daysInMonth ey (em - 1)⟩ := by
        simp [prevDay, hm]
      rw [hp]
      simp only [dateLt, monthIdx]
      omega
    · have hem : em = 1 := by omega
      subst hem
      have hp : prevDay ⟨ey, 1, 1⟩ = ⟨ey - 1, 12, 31⟩ := by simp [prevDay]
      rw [hp]
      simp only [dateLt, monthIdx]
      omega

theorem nextMonth_facts (c : PDate) (h1 : 1 ≤ c.month) (h2 : c.month ≤ 12) :
    ∃ y' m', addDays (monthEndOf c) 1 = ⟨y', m', 1⟩ ∧ 1 ≤ m' ∧ m' ≤ 12 ∧
      c.year ≤ y' ∧ 12 * y' + m' - 1 = 12 * c.year + c.month := by
  have ha : ∀ d : PDate, addDays d 1 = nextDay d := fun _ => rfl
  rw [ha, monthEnd_eq c h1 h2]
  by_cases hm : c.month < 12
  · have e : nextDay ⟨c.year, c.month, daysInMonth c.year c.month⟩ =
        ⟨c.year, c.month + 1, 1⟩ := by
      simp [nextDay, hm]
    rw [e]
    exact ⟨c.year, c.month + 1, rfl, by omega, by omega, Nat.le_refl _, by omega⟩
  · have hm12 : c.month = 12 := by omega
    rw [hm12]
    have e : nextDay ⟨c.year, 12, daysInMonth c.year 12⟩ = ⟨c.year + 1, 1, 1⟩ := by
      simp [nextDay]
    rw [e]
    exact ⟨c.year + 1, 1, rfl, by omega, by omega, by omega, by omega⟩

theorem drLoop_months (rand : Nat → Nat → Nat) (endD : PDate) (he : ValidDate endD) :
    ∀ fuel k y m, 1 ≤ m → m ≤ 12 →
      k = monthIdx (prevDay endD) + 1 - (12 * y + m - 1) → k ≤ fuel →
      (drLoop rand endD fuel ⟨y, m, 1⟩).map (fun p => monthIdx p.1) =
        (List.range k).map (fun i => 12 * y + m - 1 + i) := by
  intro fuel
  induction fuel with
  | zero =>
    intro k y m hm1 hm2 hk hkf
    have hk0 : k = 0 := by omega
    subst hk0
    simp [drLoop]
  | succ f ih =>
    intro k y m hm1 hm2 hk hkf
    by_cases hlt : dateLt ⟨y, m, 1⟩ endD
    · have hk1 : 1 ≤ k := by
        have := (firstOf_lt_iff hm1 hm2 he).mp hlt
        omega
      simp only [drLoop]
      rw [if_pos hlt]
      obtain ⟨y', m', heq, hm'1, hm'2, hyy, hidx⟩ :=
        nextMonth_facts ⟨y, m, 1⟩ (by simpa using hm1) (by simpa using hm2)
      simp only at heq hidx
      rw [List.map_cons, heq,
        ih (k - 1) y' m' hm'1 hm'2 (by omega) (by omega),
        show k = (k - 1) + 1 by omega, List.range_succ_eq_map, List.map_cons, List.map_map]
      refine congrArg₂ _ ?_ ?_
      · simp only [monthIdx]
        omega
      · apply List.map_congr_left
        intro a _
        simp only [Function.comp_apply]
        omega
    · have hk0 : k = 0 := by
        have := (firstOf_lt_iff hm1 hm2 he).not.mp hlt
        omega
      subst hk0
      simp only [drLoop]
      rw [if_neg hlt]
      simp

theorem generate_unfold (rand : Nat → Nat → Nat) (start : PDate) (delta : Nat)
    (hlt : dateLt start (addDays start delta)) :
    generate_date_ranges rand start delta =
      (⟨start.year, start.month, rand 1 (max 1 ((monthEndOf start).day - 7))⟩,
        addDays ⟨start.year, start.month, rand 1 (max 1 ((monthEndOf start).day - 7))⟩ 7) ::
        drLoop rand (addDays start delta) (delta + 1) (addDays (monthEndOf start) 1) := by
  unfold generate_date_ranges
  rw [show delta + 2 = (delta + 1) + 1 from rfl]
  show (if dateLt start (addDays start delta) then _ else []) = _
  rw [if_pos hlt]

/-- Claim C6: `generate_date_ranges` emits exactly one date range per
calendar month touched by the horizon — the month of the start date and
each following month through the month containing the horizon's last day
(`start + (delta - 1)` days): the emitted check-in months are exactly the
consecutive month indices starting at the start date's month. -/
theorem claim6_one_range_per_month (rand : Nat → Nat → Nat) (start : PDate) (delta : Nat)
    (hv : ValidDate start) (hd : 1 ≤ delta) :
    (generate_date_ranges rand start delta).map (fun p => monthIdx p.1) =
      (List.range (monthIdx (addDays start (delta - 1)) + 1 - monthIdx start)).map
        (fun i => monthIdx start + i) ∧
      (generate_date_ranges rand start delta).length =
        monthIdx (addDays start (delta - 1)) + 1 - monthIdx start := by
  have hvE : ValidDate (addDays start delta) := addDays_valid hv delta
  have hprev : prevDay (addDays start delta) = addDays start (delta - 1) := by
    have h' := prevDay_addDays hv (delta - 1)
    have hde : (delta - 1) + 1 = delta := by omega
    rw [hde] at h'
    exact h'
  have hmono := monthIdx_addDays hv (delta - 1)
  have hlt : dateLt start (addDays start delta) := dateLt_addDays start delta hd
  have hsm1 : 1 ≤ start.month := hv.2.1
  have hsm2 : start.month ≤ 12 := hv.2.2.1
  have hmain : (generate_date_ranges rand start delta).map (fun p => monthIdx p.1) =
      (List.range (monthIdx (addDays start (delta - 1)) + 1 - monthIdx start)).map
        (fun i => monthIdx start + i) := by
    obtain ⟨y', m', heq, hm'1, hm'2, hyy, hidx⟩ := nextMonth_facts start hsm1 hsm2
    rw [generate_unfold rand start delta hlt, List.map_cons, heq,
      drLoop_months rand (addDays start delta) hvE (delta + 1)
        (monthIdx (prevDay (addDays start delta)) + 1 - (12 * y' + m' - 1)) y' m'
        hm'1 hm'2 rfl (by rw [hprev]; unfold monthIdx at hmono ⊢; omega)]
    rw [hprev]
    have hK : monthIdx (addDays start (delta - 1)) + 1 - monthIdx start =
        (monthIdx (addDays start (delta - 1)) + 1 - (12 * y' + m' - 1)) + 1 := by
      unfold monthIdx at hmono ⊢
      omega
    rw [hK, List.range_succ_eq_map, List.map_cons, List.map_map]
    refine congrArg₂ _ ?_ ?_
    · simp only [monthIdx]
      omega
    · apply List.map_congr_left
      intro a _
      simp only [Function.comp_apply]
      unfold monthIdx
      omega
  refine ⟨hmain, ?_⟩
  have := congrArg List.length hmain
  simpa using this

theorem drLoop_ranges (rand : Nat → Nat → Nat) (endD : PDate) (hr : RandInRange rand) :
    ∀ fuel cur, 1 ≤ cur.year → 1 ≤ cur.month → cur.month ≤ 12 →
      ∀ ci co, (ci, co) ∈ drLoop rand endD fuel cur →
        co = addDays ci 7 ∧ ValidDate ci ∧
          ci.day ≤ max 1 (daysInMonth ci.year ci.month - 7) := by
  intro fuel
  induction fuel with
  | zero =>
    intro cur _ _ _ ci co h
    simp [drLoop] at h
  | succ f ih =>
    intro cur hy hm1 hm2 ci co h
    by_cases hlt : dateLt cur endD
    · simp only [drLoop] at h
      rw [if_pos hlt] at h
      rcases List.mem_cons.mp h with hh | ht
      · injection hh with hci hco
        have hme := monthEnd_eq cur hm1 hm2
        have hd : (monthEndOf cur).day = daysInMonth cur.year cur.month := by rw [hme]
        have hb := dim_bounds cur.year cur.month hm1 hm2
        have hrr := hr 1 (max 1 ((monthEndOf cur).day - 7)) (le_max_left _ _)
        subst hci
        refine ⟨hco, ⟨hy, hm1, hm2, hrr.1, ?_⟩, ?_⟩
        · show rand 1 (max 1 ((monthEndOf cur).day - 7)) ≤ daysInMonth cur.year cur.month
          refine le_trans hrr.2 (max_le ?_ ?_) <;> omega
        · show rand 1 (max 1 ((monthEndOf cur).day - 7)) ≤
            max 1 (daysInMonth cur.year cur.month - 7)
          have h2 : max 1 ((monthEndOf cur).day - 7) =
              max 1 (daysInMonth cur.year cur.month - 7) := by rw [hd]
          rw [← h2]
          exact hrr.2
      · obtain ⟨y', m', heq, hm'1, hm'2, hyy, hidx⟩ := nextMonth_facts cur hm1 hm2
        refine ih (addDays (monthEndOf cur) 1) ?_ ?_ ?_ ci co ht
        · rw [heq]; exact Nat.le_trans hy hyy
        · rw [heq]; exact hm'1
        · rw [heq]; exact hm'2
    · simp only [drLoop] at h
      rw [if_neg hlt] at h
      simp at h

/-- Claim C5: every range emitted by `generate_date_ranges` has check-out
equal to check-in plus exactly 7 days, and the check-in is a real date of
its calendar month whose day was drawn from `[1, max 1 (last_day - 7)]`. -/
theorem claim5_window_shape (rand : Nat → Nat → Nat) (start : PDate) (delta : Nat)
    (hv : ValidDate start) (hr : RandInRange rand) :
    ∀ ci co, (ci, co) ∈ generate_date_ranges rand start delta →
      co = addDays ci 7 ∧ ValidDate ci ∧
        ci.day ≤ max 1 (daysInMonth ci.year ci.month - 7) := by
  intro ci co h
  exact drLoop_ranges rand (addDays start delta) hr (delta + 2) start hv.1 hv.2.1 hv.2.2.1 ci co h

theorem claim5_witness :
    (⟨2025, 3, 8⟩ : PDate) = addDays ⟨2025, 3, 1⟩ 7 ∧ ValidDate ⟨2025, 3, 1⟩ ∧
      (⟨2025, 3, 1⟩ : PDate).day ≤ max 1 (daysInMonth 2025 3 - 7) :=
  claim5_window_shape (fun lo _ => lo) ⟨2025, 3, 10⟩ 1 (by decide)
    (fun lo _ h => ⟨Nat.le_refl lo, h⟩) ⟨2025, 3, 1⟩ ⟨2025, 3, 8⟩ (by decide)

theorem claim6_witness :
    (generate_date_ranges (fun lo _ => lo) ⟨2025, 1, 15⟩ 40).map (fun p => monthIdx p.1) =
      (List.range (monthIdx (addDays ⟨2025, 1, 15⟩ (40 - 1)) + 1 - monthIdx ⟨2025, 1, 15⟩)).map
        (fun i => monthIdx ⟨2025, 1, 15⟩ + i) ∧
      (generate_date_ranges (fun lo _ => lo) ⟨2025, 1, 15⟩ 40).length =
        monthIdx (addDays ⟨2025, 1, 15⟩ (40 - 1)) + 1 - monthIdx ⟨2025, 1, 15⟩ :=
  claim6_one_range_per_month (fun lo _ => lo) ⟨2025, 1, 15⟩ 40 (by decide) (by omega)

/-- Claim C10: the first emitted window ignores the day of the supplied
start date — its check-in day is drawn from the full range
`[1, max 1 (last_day - 7)]` of the start date's month; in particular, with
start date 2025-01-31 and the draw landing on the low end, the first
emitted check-in (2025-01-01) precedes the supplied start date. -/
theorem claim10_first_window (rand : Nat → Nat → Nat) (start : PDate) (delta : Nat)
    (hv : ValidDate start) (hd : 1 ≤ delta) :
    (generate_date_ranges rand start delta).head? =
      some (⟨start.year, start.month,
          rand 1 (max 1 (daysInMonth start.year start.month - 7))⟩,
        addDays ⟨start.year, start.month,
          rand 1 (max 1 (daysInMonth start.year start.month - 7))⟩ 7) ∧
      ((generate_date_ranges (fun lo _ => lo) ⟨2025, 1, 31⟩ 1).head? =
          some (⟨2025, 1, 1⟩, ⟨2025, 1, 8⟩) ∧
        dateLt ⟨2025, 1, 1⟩ ⟨2025, 1, 31⟩) := by
  refine ⟨?_, by decide, by decide⟩
  have hlt : dateLt start (addDays start delta) := dateLt_addDays start delta hd
  have hme := monthEnd_eq start hv.2.1 hv.2.2.1
  have hday : (monthEndOf start).day = daysInMonth start.year start.month := by rw [hme]
  rw [generate_unfold rand start delta hlt, hday]
  rfl

theorem claim10_witness :
    (generate_date_ranges (fun lo hi => lo + hi - hi) ⟨2024, 2, 20⟩ 3).head? =
      some (⟨2024, 2, (fun lo hi => lo + hi - hi) 1 (max 1 (daysInMonth 2024 2 - 7))⟩,
        addDays ⟨2024, 2, (fun lo hi => lo + hi - hi) 1 (max 1 (daysInMonth 2024 2 - 7))⟩ 7) ∧
      ((generate_date_ranges (fun lo _ => lo) ⟨2025, 1, 31⟩ 1).head? =
          some (⟨2025, 1, 1⟩, ⟨2025, 1, 8⟩) ∧
        dateLt ⟨2025, 1, 1⟩ ⟨2025, 1, 31⟩) :=
  claim10_first_window (fun lo hi => lo + hi - hi) ⟨2024, 2, 20⟩ 3 (by decide) (by omega)

theorem claim8_witness :
    (fetch_hotel_page (Except.ok (500, "oops")) = "" ∧
        get_hotel_details_async (fun _ => ⟨none, []⟩) (Except.ok (500, "oops")) "h" "ci" "co" "u" = []) ∧
      combineResults [[], []] = [] :=
  ⟨claim8_amended.1 (fun _ => ⟨none, []⟩) (Except.ok (500, "oops")) "h" "ci" "co" "u"
      (Or.inr ⟨500, "oops", rfl, by omega⟩),
    claim8_amended.2 [[], []] (by simp)⟩

end HotelScrape
